import Mathlib

/-!
Verification of the secure-middleware-service pipeline: a shallow embedding of
the circuit breaker (`lib/circuitBreaker`), the PII sanitizer (`lib/sanitizer`),
the AES-256-GCM audit-encryption wrapper (`lib/crypto`), the audit sink
(`lib/auditLog`), the startup key check (`server.js`) and the
`POST /secure-inquiry` route handler (`routes/secureInquiry`), together with
proofs of the specification's claims about them.

Conventions: JavaScript `Date.now()` timestamps are `Nat` milliseconds, strings
are Lean `String`s, byte buffers are `List Nat`.
-/

namespace SecureMiddleware

/-! ## Circuit breaker (`lib/circuitBreaker`)

`STATE = { CLOSED, OPEN, HALF_OPEN }`, `CONFIG = { FAILURE_THRESHOLD: 3,
COOLDOWN_MS: 30000 }`.  The breaker instance holds `state`, `failCount` and
`nextAttempt`; `canExecute` takes the current time explicitly (the source reads
`Date.now()`). -/

inductive BState where
  | CLOSED
  | OPEN
  | HALF_OPEN
deriving DecidableEq, Repr

def FAILURE_THRESHOLD : Nat := 3

def COOLDOWN_MS : Nat := 30000

structure CircuitBreaker where
  state : BState
  failCount : Nat
  nextAttempt : Nat
deriving DecidableEq, Repr

/-- `canExecute()` from the source, with `Date.now()` passed as `now`.  Returns
the boolean result together with the (possibly lazily transitioned) breaker. -/
def canExecute (now : Nat) (cb : CircuitBreaker) : Bool × CircuitBreaker :=
  match cb.state with
  | .CLOSED => (true, cb)
  | .OPEN =>
    if cb.nextAttempt ≤ now then
      (true, { cb with state := .HALF_OPEN })
    else
      (false, cb)
  | .HALF_OPEN => (true, cb)

/-- `recordSuccess()`: sets `failCount = 0` and `state = CLOSED`; the source
never touches `nextAttempt` here. -/
def recordSuccess (cb : CircuitBreaker) : CircuitBreaker :=
  { cb with failCount := 0, state := .CLOSED }

/-- `recordFailure()`: from HALF_OPEN go straight back to OPEN with a fresh
cooldown (early return, `failCount` untouched); otherwise increment `failCount`
and trip to OPEN once the threshold is reached. -/
def recordFailure (now : Nat) (cb : CircuitBreaker) : CircuitBreaker :=
  if cb.state = .HALF_OPEN then
    { cb with state := .OPEN, nextAttempt := now + COOLDOWN_MS }
  else
    let fc := cb.failCount + 1
    if FAILURE_THRESHOLD ≤ fc then
      { state := .OPEN, failCount := fc, nextAttempt := now + COOLDOWN_MS }
    else
      { cb with failCount := fc }

/-- `getState()`: a pure read of `(state, failCount)`. -/
def getState (cb : CircuitBreaker) : BState × Nat :=
  (cb.state, cb.failCount)

/-- Apply a sequence of `recordFailure` calls at the given times, in order. -/
def recordFailures (ts : List Nat) (cb : CircuitBreaker) : CircuitBreaker :=
  ts.foldl (fun s t => recordFailure t s) cb

/-! ## Cipher (`lib/crypto`)

The wrapper in the source builds an envelope `{ iv, ciphertext, authTag }` from
`crypto.createCipheriv('aes-256-gcm', key, iv)` and, on decrypt, verifies the
authentication tag before releasing plaintext. -/

/-- Modelled from the spec: the AES-256-GCM primitive lives in Node's `crypto`
library, not in this repository.  It is modelled as an ideal authenticated
stream cipher: a keystream derived from `(key, nonce)` is added to the
plaintext modulo `M`, and the authentication tag binds the key, the nonce and
the ciphertext exactly (spec §4.2: "a wrong key or tampered ciphertext/tag must
fail closed").  `M = 2^32` exceeds every Unicode code point, so message code
points are valid "bytes" of this cipher. -/
def M : Nat := 4294967296

/-- Keystream position `i` for the ideal cipher, derived from key and nonce. -/
def keystream (key nonce : List Nat) (i : Nat) : Nat :=
  (key.getD (i % 32) 0 + nonce.getD (i % 12) 0 + i) % M

/-- Ideal-cipher encryption of a byte list: add the keystream pointwise mod `M`. -/
def encBytes (key nonce pt : List Nat) : List Nat :=
  (List.range pt.length).map (fun i => (pt.getD i 0 + keystream key nonce i) % M)

/-- Ideal-cipher decryption: subtract the keystream pointwise mod `M`. -/
def decBytes (key nonce ct : List Nat) : List Nat :=
  (List.range ct.length).map (fun i => (ct.getD i 0 + (M - keystream key nonce i)) % M)

/-- Modelled from the spec: the ideal GCM authentication tag binds key, nonce
and ciphertext exactly (it is their concatenation, which is injective once the
key and nonce lengths are fixed at 32 and 12). -/
def idealTag (key nonce ct : List Nat) : List Nat :=
  key ++ nonce ++ ct

/-- The encrypted envelope `{ iv, ciphertext, authTag }` produced by `encrypt`
in `lib/crypto` (before base64/JSON serialization). -/
structure Envelope where
  iv : List Nat
  ciphertext : List Nat
  authTag : List Nat
deriving DecidableEq, Repr

/-- `encrypt` from `lib/crypto`: fresh random 12-byte IV (passed explicitly
here, randomness made a parameter), AES-256-GCM encryption, envelope assembly. -/
def encrypt (key nonce pt : List Nat) : Envelope :=
  { iv := nonce
    ciphertext := encBytes key nonce pt
    authTag := idealTag key nonce (encBytes key nonce pt) }

inductive DecryptError where
  | authenticationError
  | parseError
deriving DecidableEq, Repr

/-- `decrypt` from `lib/crypto`, after the envelope has been parsed: recompute
and verify the authentication tag, then and only then release the plaintext. -/
def decrypt (key : List Nat) (env : Envelope) : Except DecryptError (List Nat) :=
  if env.authTag = idealTag key env.iv env.ciphertext then
    .ok (decBytes key env.iv env.ciphertext)
  else
    .error .authenticationError

/-- Modelled from the spec: the base64/JSON codec around the envelope is not
modelled byte-for-byte; an encoded blob either decodes to an envelope or fails
to parse (a malformed blob makes `JSON.parse`/`Buffer.from` in the source
throw before any cryptography runs). -/
inductive EncodedBlob where
  | wellFormed (env : Envelope)
  | garbage
deriving DecidableEq, Repr

/-- Full `decrypt` on a serialized blob: parse, then authenticate, then
decrypt.  A malformed blob fails closed with a parse error. -/
def decryptBlob (key : List Nat) : EncodedBlob → Except DecryptError (List Nat)
  | .wellFormed env => decrypt key env
  | .garbage => .error .parseError

/-- A Lean string as the byte/code-point list fed to the cipher model. -/
def strBytes (s : String) : List Nat :=
  s.data.map Char.toNat

/-! ## Sanitizer (`lib/sanitizer`)

`sanitizeMessage` applies three global regex replacements in order:
1. emails   `\b[A-Za-z0-9._%+-]+@[A-Za-z0-9.-]+\.[A-Za-z]{2,}\b` → `<REDACTED: EMAIL>`
2. SSNs     `\b\d{3}-?\d{2}-?\d{4}\b`                            → `<REDACTED: SSN>`
3. cards    `\b(?:\d{4}[-\s]?){3}\d{4}\b`                        → `<REDACTED: CREDIT_CARD>`

Each regex is embedded as a deterministic matcher returning the length of the
match at the current position, if any.  Determinism is faithful to the
backtracking engine for these particular patterns: every optional/greedy piece
is followed by a token that can never match the characters the piece consumes
(`@` is not a local-part character, a digit is not a dash/space, a shorter
letter run ends in front of a letter and so fails `\b`), except for the
domain-dot split in the email pattern, which is searched longest-first exactly
as the engine does. -/

/-- JavaScript `\w`: ASCII letters, digits, underscore. -/
def isWordChar (c : Char) : Bool :=
  c.isAlphanum || c = '_'

/-- The character class `[A-Za-z0-9._%+-]` of the email local part. -/
def isLocalChar (c : Char) : Bool :=
  c.isAlphanum || c = '.' || c = '_' || c = '%' || c = '+' || c = '-'

/-- The character class `[A-Za-z0-9.-]` of the email domain. -/
def isDomainChar (c : Char) : Bool :=
  c.isAlphanum || c = '.' || c = '-'

/-- The class `[-\s]` separating card digit groups (whitespace per the source
inputs: space, tab, CR, LF). -/
def isSepChar (c : Char) : Bool :=
  c = '-' || c = ' ' || c = '\t' || c = '\n' || c = '\r'

/-- `\b` at a match start: boundary between the previous character (is it a
word character?) and the first matched character. -/
def hasBoundary (prevW : Bool) (c : Char) : Bool :=
  prevW != isWordChar c

/-- `\b` at a match end whose last character is a word character: the next
character must not be a word character (or the string ends). -/
def boundaryAfterOk : List Char → Bool
  | [] => true
  | c :: _ => !isWordChar c

/-- Length of the longest prefix satisfying `p` (a greedy character-class run). -/
def countWhile (p : Char → Bool) : List Char → Nat
  | [] => 0
  | c :: cs => if p c then countWhile p cs + 1 else 0

/-- Consume exactly `k` digits (`\d{k}`), returning the rest. -/
def eatDigits : Nat → List Char → Option (List Char)
  | 0, cs => some cs
  | _ + 1, [] => none
  | k + 1, c :: cs => if c.isDigit then eatDigits k cs else none

/-- Consume an optional single character satisfying `p` (greedy `X?`),
returning how many characters were consumed and the rest. -/
def eatOpt (p : Char → Bool) : List Char → Nat × List Char
  | [] => (0, [])
  | c :: cs => if p c then (1, cs) else (0, c :: cs)

/-- Search the domain-dot split of the email pattern: try the literal `\.` at
index `j` of the domain run for `j = hi - 1, hi - 2, …, 1` (longest domain
prefix first, as the greedy engine does) and require `[A-Za-z]{2,}\b` after
it.  Returns the matched domain length `j + 1 + letters`. -/
def tryDots (rest : List Char) : Nat → Option Nat
  | 0 => none
  | j + 1 =>
    if 1 ≤ j ∧ rest.getD j ' ' = '.' then
      let L := countWhile Char.isAlpha (rest.drop (j + 1))
      if 2 ≤ L ∧ boundaryAfterOk (rest.drop (j + 1 + L)) = true then
        some (j + 1 + L)
      else
        tryDots rest j
    else
      tryDots rest j

/-- Matcher for `\b[A-Za-z0-9._%+-]+@[A-Za-z0-9.-]+\.[A-Za-z]{2,}\b` at the
current position. -/
def emailMatch (prevW : Bool) (cs : List Char) : Option Nat :=
  match cs with
  | [] => none
  | c :: _ =>
    if hasBoundary prevW c then
      let l := countWhile isLocalChar cs
      if 1 ≤ l then
        match cs.drop l with
        | '@' :: rest =>
          let r := countWhile isDomainChar rest
          match tryDots rest r with
          | some dlen => some (l + 1 + dlen)
          | none => none
        | _ => none
      else
        none
    else
      none

/-- Matcher for `\b\d{3}-?\d{2}-?\d{4}\b` at the current position. -/
def ssnMatch (prevW : Bool) (cs : List Char) : Option Nat :=
  match cs with
  | [] => none
  | c :: _ =>
    if hasBoundary prevW c then
      (eatDigits 3 cs).bind fun r1 =>
        (eatDigits 2 (eatOpt (· = '-') r1).2).bind fun r3 =>
          (eatDigits 4 (eatOpt (· = '-') r3).2).bind fun r5 =>
            if boundaryAfterOk r5 then
              some (3 + (eatOpt (· = '-') r1).1 + 2 + (eatOpt (· = '-') r3).1 + 4)
            else
              none
    else
      none

/-- Matcher for `\b(?:\d{4}[-\s]?){3}\d{4}\b` at the current position. -/
def ccMatch (prevW : Bool) (cs : List Char) : Option Nat :=
  match cs with
  | [] => none
  | c :: _ =>
    if hasBoundary prevW c then
      (eatDigits 4 cs).bind fun r1 =>
        (eatDigits 4 (eatOpt isSepChar r1).2).bind fun r3 =>
          (eatDigits 4 (eatOpt isSepChar r3).2).bind fun r5 =>
            (eatDigits 4 (eatOpt isSepChar r5).2).bind fun r7 =>
              if boundaryAfterOk r7 then
                some (16 + (eatOpt isSepChar r1).1 + (eatOpt isSepChar r3).1
                  + (eatOpt isSepChar r5).1)
              else
                none
    else
      none

/-- One global regex replacement (`String.prototype.replace` with a `/g`
regex): scan left to right, at each position try the matcher; on a match emit
the replacement tag and resume after the match (every pattern consumes at
least one character, `max 1` merely makes that manifest), otherwise emit the
character and advance by one.  `prevW` tracks whether the character before the
current position is a word character (for `\b`).  The `fuel` argument only
drives the structural recursion: each step consumes at least one character, so
`fuel = cs.length` never runs out. -/
def passRepl (m : Bool → List Char → Option Nat) (tag : List Char) :
    Nat → Bool → List Char → List Char
  | 0, _, _ => []
  | _ + 1, _, [] => []
  | fuel + 1, prevW, c :: rest =>
    match m prevW (c :: rest) with
    | some len =>
      let l1 := max 1 len
      tag ++ passRepl m tag fuel (isWordChar ((c :: rest).getD (l1 - 1) ' '))
        (List.drop l1 (c :: rest))
    | none => c :: passRepl m tag fuel (isWordChar c) rest

/-- One whole-string `replace` call: scan with enough fuel for the input. -/
def applyPass (m : Bool → List Char → Option Nat) (tag : List Char)
    (cs : List Char) : List Char :=
  passRepl m tag cs.length false cs

def TAG_EMAIL : List Char := "<REDACTED: EMAIL>".data

def TAG_SSN : List Char := "<REDACTED: SSN>".data

def TAG_CC : List Char := "<REDACTED: CREDIT_CARD>".data

/-- The three replacement passes of `sanitizeMessage`, in source order:
emails, then SSNs, then credit cards. -/
def sanitizeChars (cs : List Char) : List Char :=
  applyPass ccMatch TAG_CC
    (applyPass ssnMatch TAG_SSN
      (applyPass emailMatch TAG_EMAIL cs))

/-- `sanitizeMessage` from `lib/sanitizer` (the `if (!message)` guard returns
falsy input unchanged; for strings that is exactly `""`). -/
def sanitizeMessage (s : String) : String :=
  if s = "" then s else ⟨sanitizeChars s.data⟩

/-! ## Audit sink (`lib/auditLog`)

`appendAuditRecord` reads the whole JSON file, parses it (defaulting to `[]`
on a parse error, **without logging**), pushes the record and writes the file
back; any `fs` error in that sequence is caught and logged with
`console.error('Failed to write audit log:', err)` — and then the record is
not persisted.  The promise-chain queue serializes writes; a single append is
modelled here as the state transition it performs. -/

/-- One audit record as assembled by the route handler. -/
structure AuditRecord where
  id : String
  userId : String
  createdAt : Nat
  originalMessageEncrypted : Envelope
  redactedMessage : String
  aiResult : String
  circuitState : BState
deriving DecidableEq, Repr

/-- The persisted audit file as the sink observes it on read: readable and
parseable (its records), readable but unparseable, or unreadable
(`fs.readFileSync` throws). -/
inductive FileState where
  | parsed (records : List AuditRecord)
  | corrupt
  | unreadable
deriving DecidableEq, Repr

/-- `appendAuditRecord`: returns the resulting file state and the list of
`console.error` messages emitted (the caller-visible observability channel). -/
def appendAuditRecord (r : AuditRecord) (fs : FileState) : FileState × List String :=
  match fs with
  | .parsed ds => (.parsed (ds ++ [r]), [])
  | .corrupt => (.parsed [r], [])
  | .unreadable => (.unreadable, ["Failed to write audit log:"])

/-! ## Key configuration (`lib/crypto.getEncryptionKey`) and startup (`server.js`) -/

/-- A hex digit, per `Buffer.from(str, 'hex')`. -/
def isHexDigit (c : Char) : Bool :=
  c.isDigit || ('a' ≤ c && c ≤ 'f') || ('A' ≤ c && c ≤ 'F')

/-- Numeric value of a hex digit. -/
def hexVal (c : Char) : Nat :=
  if c.isDigit then c.toNat - '0'.toNat
  else if 'a' ≤ c && c ≤ 'f' then c.toNat - 'a'.toNat + 10
  else c.toNat - 'A'.toNat + 10

/-- Node's `Buffer.from(str, 'hex')`: decode hex pairs left to right and stop
(truncate, without an error) at the first character pair that is not valid
hex; a dangling odd character is likewise dropped. -/
def hexDecode : List Char → List Nat
  | c1 :: c2 :: rest =>
    if isHexDigit c1 && isHexDigit c2 then
      (16 * hexVal c1 + hexVal c2) :: hexDecode rest
    else
      []
  | _ => []

inductive KeyError where
  | missing
  | badLength
deriving DecidableEq, Repr

/-- The descriptive message attached to each key-configuration error in the
source. -/
def keyErrorMessage : KeyError → String
  | .missing => "AUDIT_ENCRYPTION_KEY is not defined"
  | .badLength => "AUDIT_ENCRYPTION_KEY must be a 64-character hex string (32 bytes)"

/-- `getEncryptionKey()`: throw if `AUDIT_ENCRYPTION_KEY` is unset or empty
(falsy), throw if its length is not 64 characters, otherwise return
`Buffer.from(keyHex, 'hex')`.  Note the source checks only the string length,
not hex-validity. -/
def getEncryptionKey (env : Option String) : Except KeyError (List Nat) :=
  match env with
  | none => .error .missing
  | some k =>
    if k = "" then .error .missing
    else if k.length ≠ 64 then .error .badLength
    else .ok (hexDecode k.data)

inductive ServerStatus where
  | exited (code : Nat)
  | serving
deriving DecidableEq, Repr

/-- `server.js` startup: call `getEncryptionKey()`; on a throw, log and
`process.exit(1)` before any route is mounted; otherwise begin serving. -/
def startServer (env : Option String) : ServerStatus :=
  match getEncryptionKey env with
  | .error _ => .exited 1
  | .ok _ => .serving

/-! ## Route handler (`routes/secureInquiry`, `POST /secure-inquiry`)

The mock AI call resolves with `'Generated Answer.'` and rejects exactly when
the `x-mock-ai-fail` header is `'true'` (`forceFail`), so the downstream
outcome is a deterministic function of the request.  Randomness (`uuidv4`, the
GCM IV) and time (`Date.now()`, `new Date()`) are explicit parameters. -/

/-- The request as the handler sees it after body/header parsing. -/
structure Request where
  userId : String
  message : String
  forceFail : Bool
deriving DecidableEq, Repr

/-- The JSON payload sent back (only the fields the claims talk about). -/
structure Response where
  status : Nat
  answer : Option String
  error : Option String
deriving DecidableEq, Repr

/-- What one request leaves behind: the HTTP response, the audit records
appended during the request, and the breaker state afterwards. -/
structure HandlerResult where
  resp : Response
  audits : List AuditRecord
  cb : CircuitBreaker
deriving DecidableEq, Repr

/-- JavaScript `!userId || typeof userId !== 'string' || !userId.trim()` for a
string value: true exactly when the string is empty or all whitespace. -/
def isBlank (s : String) : Bool :=
  s.data.all Char.isWhitespace

/-- The `POST /secure-inquiry` handler body: validation, breaker check with the
SERVICE_BUSY short-circuit, redaction + encryption of the original message,
the mock AI call with success/failure recording, breaker state captured after
the record step, one unconditional audit append, response assembly. -/
def handleSecureInquiry (key nonce : List Nat) (uuid : String) (now : Nat)
    (req : Request) (cb : CircuitBreaker) : HandlerResult :=
  if isBlank req.userId then
    { resp := { status := 400, answer := none
                error := some "userId is required and must be a non-empty string" }
      audits := [], cb := cb }
  else if isBlank req.message then
    { resp := { status := 400, answer := none
                error := some "message is required and must be a non-empty string" }
      audits := [], cb := cb }
  else
    let (ok, cb1) := canExecute now cb
    if ok then
      let redactedMessage := sanitizeMessage req.message
      let encryptedMessage := encrypt key nonce (strBytes req.message)
      if req.forceFail then
        let cb2 := recordFailure now cb1
        let st := getState cb2
        let record : AuditRecord :=
          { id := uuid, userId := req.userId, createdAt := now
            originalMessageEncrypted := encryptedMessage
            redactedMessage := redactedMessage
            aiResult := "Error: AI call failed", circuitState := st.1 }
        { resp := { status := 503, answer := some "AI Service Unavailable", error := none }
          audits := [record], cb := cb2 }
      else
        let cb2 := recordSuccess cb1
        let st := getState cb2
        let record : AuditRecord :=
          { id := uuid, userId := req.userId, createdAt := now
            originalMessageEncrypted := encryptedMessage
            redactedMessage := redactedMessage
            aiResult := "Generated Answer.", circuitState := st.1 }
        { resp := { status := 200, answer := some "Generated Answer.", error := none }
          audits := [record], cb := cb2 }
    else
      let st := getState cb1
      let redactedMessage := sanitizeMessage req.message
      let encryptedMessage := encrypt key nonce (strBytes req.message)
      let record : AuditRecord :=
        { id := uuid, userId := req.userId, createdAt := now
          originalMessageEncrypted := encryptedMessage
          redactedMessage := redactedMessage
          aiResult := "Service Busy", circuitState := st.1 }
      { resp := { status := 200, answer := some "Service Busy", error := none }
        audits := [record], cb := cb1 }

/-! ## Helper lemmas about the cipher model -/

theorem keystream_lt (key nonce : List Nat) (i : Nat) : keystream key nonce i < M :=
  Nat.mod_lt _ (by decide)

theorem getD_of_lt {l : List Nat} {i : Nat} (d : Nat) (h : i < l.length) :
    l.getD i d = l[i] := by
  simp [List.getD_eq_getElem?_getD, List.getElem?_eq_getElem h]

theorem roundtrip_arith (p k : Nat) (hp : p < M) (hk : k ≤ M) :
    ((p + k) % M + (M - k)) % M = p := by
  rw [Nat.mod_add_mod]
  have h : p + k + (M - k) = p + M := by omega
  rw [h, Nat.add_mod_right]
  exact Nat.mod_eq_of_lt hp

theorem length_encBytes (key nonce pt : List Nat) :
    (encBytes key nonce pt).length = pt.length := by
  simp [encBytes]

/-- The ideal cipher round-trips on any byte list drawn from its alphabet. -/
theorem decBytes_encBytes (key nonce pt : List Nat) (h : ∀ b ∈ pt, b < M) :
    decBytes key nonce (encBytes key nonce pt) = pt := by
  apply List.ext_getElem
  · simp [decBytes, encBytes]
  · intro i h1 h2
    have hi : i < (encBytes key nonce pt).length := by
      rw [length_encBytes]; exact h2
    simp only [decBytes, length_encBytes, List.getElem_map, List.getElem_range,
      List.length_map, List.length_range]
    rw [getD_of_lt 0 hi]
    simp only [encBytes, List.getElem_map, List.getElem_range]
    rw [getD_of_lt 0 h2]
    exact roundtrip_arith _ _ (h _ (List.getElem_mem h2))
      (Nat.le_of_lt (keystream_lt key nonce i))

/-- Decryption under the producing key succeeds with the original bytes. -/
theorem decrypt_encrypt (key nonce pt : List Nat) (h : ∀ b ∈ pt, b < M) :
    decrypt key (encrypt key nonce pt) = .ok pt := by
  simp [decrypt, encrypt, decBytes_encBytes key nonce pt h]

theorem char_toNat_lt (c : Char) : c.toNat < M :=
  UInt32.toNat_lt_size c.val

theorem strBytes_lt (s : String) : ∀ b ∈ strBytes s, b < M := by
  intro b hb
  simp only [strBytes, List.mem_map] at hb
  obtain ⟨c, _, rfl⟩ := hb
  exact char_toNat_lt c

theorem strBytes_injective {s t : String} (h : strBytes s = strBytes t) : s = t := by
  apply String.ext
  have hinj : Function.Injective Char.toNat := by
    intro a b hab
    have hv : a.val = b.val := UInt32.toNat.inj hab
    cases a; cases b; simp_all
  exact List.map_injective_iff.mpr hinj h

/-! ## Helper lemmas about the sanitizer on all-digit inputs

The word-boundary anchoring makes every pattern fail everywhere on a string of
`n` digits unless `n = 9` (the SSN class) or `n = 16` (the card class): inner
positions have no boundary, and at position 0 the trailing `\b` demands the
digit run end exactly after the pattern. -/

theorem isWordChar_of_digit {c : Char} (h : c.isDigit = true) : isWordChar c = true := by
  simp [isWordChar, Char.isAlphanum, h]

theorem isLocalChar_of_digit {c : Char} (h : c.isDigit = true) : isLocalChar c = true := by
  simp [isLocalChar, Char.isAlphanum, h]

theorem countWhile_eq_length (p : Char → Bool) (cs : List Char)
    (h : ∀ c ∈ cs, p c = true) : countWhile p cs = cs.length := by
  induction cs with
  | nil => rfl
  | cons c rest ih =>
    simp only [countWhile, h c (by simp), if_true, List.length_cons]
    rw [ih (fun x hx => h x (by simp [hx]))]

theorem eatDigits_all (k : Nat) (cs : List Char) (h : ∀ c ∈ cs, c.isDigit = true) :
    eatDigits k cs = if k ≤ cs.length then some (cs.drop k) else none := by
  induction k generalizing cs with
  | zero => simp [eatDigits]
  | succ n ih =>
    cases cs with
    | nil => simp [eatDigits]
    | cons c rest =>
      simp only [eatDigits, h c (by simp), if_true, List.length_cons, List.drop_succ_cons]
      rw [ih rest (fun x hx => h x (by simp [hx]))]
      simp [Nat.succ_le_succ_iff]

theorem eatOpt_all_digit (p : Char → Bool) (hp : ∀ c, c.isDigit = true → p c = false)
    (cs : List Char) (h : ∀ c ∈ cs, c.isDigit = true) :
    eatOpt p cs = (0, cs) := by
  cases cs with
  | nil => rfl
  | cons c rest => simp [eatOpt, hp c (h c (by simp))]

theorem eatOpt_all_digit_snd (p : Char → Bool) (hp : ∀ c, c.isDigit = true → p c = false)
    (cs : List Char) (h : ∀ c ∈ cs, c.isDigit = true) :
    (eatOpt p cs).2 = cs := by
  rw [eatOpt_all_digit p hp cs h]

theorem dash_not_digit (c : Char) (h : c.isDigit = true) : decide (c = '-') = false := by
  have hne : ¬(c = '-') := by
    intro hc
    subst hc
    simp [Char.isDigit] at h
  simp [hne]

theorem sep_not_digit (c : Char) (h : c.isDigit = true) : isSepChar c = false := by
  revert h
  simp only [Char.isDigit, isSepChar]
  intro h
  by_contra hc
  simp only [Bool.not_eq_false, Bool.or_eq_true, decide_eq_true_eq] at hc
  rcases hc with ((((hc | hc) | hc) | hc) | hc) <;> subst hc <;> simp_all

theorem boundaryAfterOk_digits (cs : List Char) (h : ∀ c ∈ cs, c.isDigit = true) :
    boundaryAfterOk cs = true ↔ cs = [] := by
  cases cs with
  | nil => simp [boundaryAfterOk]
  | cons c rest =>
    simp [boundaryAfterOk, isWordChar_of_digit (h c (by simp))]

theorem hasBoundary_digit_false {c : Char} (h : c.isDigit = true) :
    hasBoundary false c = true := by
  simp [hasBoundary, isWordChar_of_digit h]

theorem hasBoundary_digit_true {c : Char} (h : c.isDigit = true) :
    hasBoundary true c = false := by
  simp [hasBoundary, isWordChar_of_digit h]

theorem emailMatch_digits (b : Bool) (cs : List Char)
    (h : ∀ c ∈ cs, c.isDigit = true) : emailMatch b cs = none := by
  cases cs with
  | nil => rfl
  | cons c rest =>
    simp only [emailMatch]
    split
    · rw [countWhile_eq_length isLocalChar (c :: rest)
        (fun x hx => isLocalChar_of_digit (h x hx))]
      simp [List.drop_length]
    · rfl

theorem ssnMatch_digits_true (cs : List Char) (h : ∀ c ∈ cs, c.isDigit = true) :
    ssnMatch true cs = none := by
  cases cs with
  | nil => rfl
  | cons c rest =>
    simp [ssnMatch, hasBoundary, isWordChar_of_digit (h c (by simp))]

theorem ssnMatch_digits_false (cs : List Char) (h : ∀ c ∈ cs, c.isDigit = true)
    (hlen : cs.length ≠ 9) : ssnMatch false cs = none := by
  cases hcs : cs with
  | nil => rfl
  | cons c rest =>
    subst hcs
    have hdrop : ∀ k, ∀ x ∈ (c :: rest).drop k, x.isDigit = true :=
      fun k x hx => h x (List.drop_subset k (c :: rest) hx)
    have hsub : ∀ (l : List Char), (∀ x ∈ l, x.isDigit = true) →
        ∀ k, ∀ x ∈ l.drop k, x.isDigit = true :=
      fun l hl k x hx => hl x (List.drop_subset k l hx)
    simp only [ssnMatch]
    rw [if_pos (hasBoundary_digit_false (h c (by simp)))]
    rw [eatDigits_all 3 _ h]
    by_cases h3 : 3 ≤ (c :: rest).length
    · rw [if_pos h3]
      simp only [Option.some_bind]
      rw [eatOpt_all_digit_snd _ dash_not_digit _ (hsub _ h 3)]
      rw [eatDigits_all 2 _ (hsub _ h 3)]
      by_cases h5 : 2 ≤ ((c :: rest).drop 3).length
      · rw [if_pos h5]
        simp only [Option.some_bind]
        rw [eatOpt_all_digit_snd _ dash_not_digit _ (hsub _ (hsub _ h 3) 2)]
        rw [eatDigits_all 4 _ (hsub _ (hsub _ h 3) 2)]
        by_cases h9 : 4 ≤ (((c :: rest).drop 3).drop 2).length
        · rw [if_pos h9]
          simp only [Option.some_bind]
          rw [if_neg]
          simp only [Bool.not_eq_true]
          have hne : ((((c :: rest).drop 3).drop 2).drop 4) ≠ [] := by
            intro hnil
            apply hlen
            have hl := congrArg List.length hnil
            simp only [List.length_drop, List.length_nil, List.length_cons] at hl h3 h5 h9
            simp only [List.length_cons]
            omega
          cases hD : (((c :: rest).drop 3).drop 2).drop 4 with
          | nil => exact absurd hD hne
          | cons d ds =>
            simp [boundaryAfterOk,
              isWordChar_of_digit
                (hsub _ (hsub _ (hsub _ h 3) 2) 4 d (by rw [hD]; simp))]
        · rw [if_neg h9]
          rfl
      · rw [if_neg h5]
        rfl
    · rw [if_neg h3]
      rfl

theorem ccMatch_digits_true (cs : List Char) (h : ∀ c ∈ cs, c.isDigit = true) :
    ccMatch true cs = none := by
  cases cs with
  | nil => rfl
  | cons c rest =>
    simp [ccMatch, hasBoundary, isWordChar_of_digit (h c (by simp))]

theorem ccMatch_digits_false (cs : List Char) (h : ∀ c ∈ cs, c.isDigit = true)
    (hlen : cs.length ≠ 16) : ccMatch false cs = none := by
  cases hcs : cs with
  | nil => rfl
  | cons c rest =>
    subst hcs
    have hdrop : ∀ k, ∀ x ∈ (c :: rest).drop k, x.isDigit = true :=
      fun k x hx => h x (List.drop_subset k (c :: rest) hx)
    have hsub : ∀ (l : List Char), (∀ x ∈ l, x.isDigit = true) →
        ∀ k, ∀ x ∈ l.drop k, x.isDigit = true :=
      fun l hl k x hx => hl x (List.drop_subset k l hx)
    simp only [ccMatch]
    rw [if_pos (hasBoundary_digit_false (h c (by simp)))]
    rw [eatDigits_all 4 _ h]
    by_cases h4 : 4 ≤ (c :: rest).length
    · rw [if_pos h4]
      simp only [Option.some_bind]
      rw [eatOpt_all_digit_snd _ sep_not_digit _ (hsub _ h 4)]
      rw [eatDigits_all 4 _ (hsub _ h 4)]
      by_cases h8 : 4 ≤ ((c :: rest).drop 4).length
      · rw [if_pos h8]
        simp only [Option.some_bind]
        rw [eatOpt_all_digit_snd _ sep_not_digit _ (hsub _ (hsub _ h 4) 4)]
        rw [eatDigits_all 4 _ (hsub _ (hsub _ h 4) 4)]
        by_cases h12 : 4 ≤ (((c :: rest).drop 4).drop 4).length
        · rw [if_pos h12]
          simp only [Option.some_bind]
          rw [eatOpt_all_digit_snd _ sep_not_digit _ (hsub _ (hsub _ (hsub _ h 4) 4) 4)]
          rw [eatDigits_all 4 _ (hsub _ (hsub _ (hsub _ h 4) 4) 4)]
          by_cases h16 : 4 ≤ ((((c :: rest).drop 4).drop 4).drop 4).length
          · rw [if_pos h16]
            simp only [Option.some_bind]
            rw [if_neg]
            simp only [Bool.not_eq_true]
            have hne : (((((c :: rest).drop 4).drop 4).drop 4).drop 4) ≠ [] := by
              intro hnil
              apply hlen
              have hl := congrArg List.length hnil
              simp only [List.length_drop, List.length_nil, List.length_cons]
                at hl h4 h8 h12 h16
              simp only [List.length_cons]
              omega
            cases hD : ((((c :: rest).drop 4).drop 4).drop 4).drop 4 with
            | nil => exact absurd hD hne
            | cons d ds =>
              simp [boundaryAfterOk,
                isWordChar_of_digit
                  (hsub _ (hsub _ (hsub _ (hsub _ h 4) 4) 4) 4 d (by rw [hD]; simp))]
          · rw [if_neg h16]
            rfl
        · rw [if_neg h12]
          rfl
      · rw [if_neg h8]
        rfl
    · rw [if_neg h4]
      rfl

theorem passRepl_id_true (m : Bool → List Char → Option Nat) (tag : List Char)
    (hm : ∀ ds, (∀ c ∈ ds, c.isDigit = true) → m true ds = none) :
    ∀ cs fuel, cs.length ≤ fuel → (∀ c ∈ cs, c.isDigit = true) →
      passRepl m tag fuel true cs = cs := by
  intro cs
  induction cs with
  | nil =>
    intro fuel _ _
    cases fuel <;> rfl
  | cons c rest ih =>
    intro fuel hle h
    cases fuel with
    | zero => simp at hle
    | succ n =>
      rw [passRepl]
      simp only [hm _ h]
      rw [isWordChar_of_digit (h c (by simp))]
      rw [ih n (by simp only [List.length_cons] at hle; omega)
        (fun x hx => h x (by simp [hx]))]

theorem passRepl_id_digits (m : Bool → List Char → Option Nat) (tag : List Char)
    (cs : List Char) (fuel : Nat) (hle : cs.length ≤ fuel)
    (hm : ∀ ds, (∀ c ∈ ds, c.isDigit = true) → m true ds = none)
    (hstart : m false cs = none)
    (h : ∀ c ∈ cs, c.isDigit = true) :
    passRepl m tag fuel false cs = cs := by
  cases cs with
  | nil => cases fuel <;> rfl
  | cons c rest =>
    cases fuel with
    | zero => simp at hle
    | succ n =>
      rw [passRepl]
      simp only [hstart]
      rw [isWordChar_of_digit (h c (by simp))]
      rw [passRepl_id_true m tag hm rest n
        (by simp only [List.length_cons] at hle; omega)
        (fun x hx => h x (by simp [hx]))]

/-- On a string of `n` digits with `n ∉ {9, 16}`, all three passes are the
identity. -/
theorem sanitizeChars_digits (cs : List Char) (h : ∀ c ∈ cs, c.isDigit = true)
    (h9 : cs.length ≠ 9) (h16 : cs.length ≠ 16) : sanitizeChars cs = cs := by
  unfold sanitizeChars applyPass
  rw [passRepl_id_digits emailMatch TAG_EMAIL cs cs.length (Nat.le_refl _)
      (fun ds hds => emailMatch_digits true ds hds)
      (emailMatch_digits false cs h) h]
  rw [passRepl_id_digits ssnMatch TAG_SSN cs cs.length (Nat.le_refl _)
      (fun ds hds => ssnMatch_digits_true ds hds)
      (ssnMatch_digits_false cs h h9) h]
  rw [passRepl_id_digits ccMatch TAG_CC cs cs.length (Nat.le_refl _)
      (fun ds hds => ccMatch_digits_true ds hds)
      (ccMatch_digits_false cs h h16) h]

/-- String-level version of `sanitizeChars_digits`. -/
theorem sanitizeMessage_digits (s : String) (h : ∀ c ∈ s.data, c.isDigit = true)
    (h9 : s.data.length ≠ 9) (h16 : s.data.length ≠ 16) : sanitizeMessage s = s := by
  unfold sanitizeMessage
  split
  · rfl
  · rw [sanitizeChars_digits s.data h h9 h16]

/-! ## Claims about the sanitizer -/

/-- Claim C9: `sanitizeMessage` replaces each PII occurrence with its category
tag and leaves everything else byte-identical, on the spec's examples: the
email example, the untouched IP address, every 8-digit string (never mistaken
for an SSN), both SSN spellings in one message, and the grouped credit card. -/
theorem claim_C9 :
    sanitizeMessage "Contact me at test@example.com immediately."
      = "Contact me at <REDACTED: EMAIL> immediately."
    ∧ sanitizeMessage "My IP is 127.0.0.1" = "My IP is 127.0.0.1"
    ∧ (∀ s : String, (∀ c ∈ s.data, c.isDigit = true) → s.data.length = 8 →
        sanitizeMessage s = s)
    ∧ sanitizeMessage "My SSN is 123-45-6789 or 123456789."
      = "My SSN is <REDACTED: SSN> or <REDACTED: SSN>."
    ∧ sanitizeMessage "Charge my card 4242-4242-4242-4242 now."
      = "Charge my card <REDACTED: CREDIT_CARD> now." := by
  refine ⟨by decide, by decide, ?_, by decide, by decide⟩
  intro s h h8
  exact sanitizeMessage_digits s h (by omega) (by omega)

/-- Witness for C9: the universally quantified conjunct applied to a concrete
8-digit string. -/
theorem claim_C9_witness : sanitizeMessage "12345678" = "12345678" :=
  claim_C9.2.2.1 "12345678" (by decide) (by decide)

/-- Counterexample to claim C6 as stated: `378282246310005` is a brand-valid
15-digit contiguous American-Express-style run, which the claim says is
redacted as a credit card; the code's pattern
`\b(?:\d{4}[-\s]?){3}\d{4}\b` needs four full groups of four digits, so the
string passes through unchanged. -/
theorem claim_C6_counterexample :
    sanitizeMessage "378282246310005" = "378282246310005"
    ∧ sanitizeMessage "378282246310005" ≠ "<REDACTED: CREDIT_CARD>" := by
  exact ⟨by decide, by decide⟩

/-- Claim C6 as amended: the credit-card class matches four groups of four
digits with an optional single dash/space after each of the first three groups
(hence 16-digit contiguous runs); a 12-digit non-grouped number is never
redacted, and brand-valid 13-, 14- and 15-digit contiguous runs are not
redacted either. -/
theorem claim_C6_amended :
    (∀ s : String, (∀ c ∈ s.data, c.isDigit = true) → s.data.length = 12 →
        sanitizeMessage s = s)
    ∧ sanitizeMessage "4222222222222" = "4222222222222"
    ∧ sanitizeMessage "36227206271667" = "36227206271667"
    ∧ sanitizeMessage "378282246310005" = "378282246310005"
    ∧ sanitizeMessage "4242424242424242" = "<REDACTED: CREDIT_CARD>"
    ∧ sanitizeMessage "4242-4242-4242-4242" = "<REDACTED: CREDIT_CARD>"
    ∧ sanitizeMessage "4242 4242 4242 4242" = "<REDACTED: CREDIT_CARD>" := by
  refine ⟨?_, by decide, by decide, by decide, by decide, by decide, by decide⟩
  intro s h h12
  exact sanitizeMessage_digits s h (by omega) (by omega)

/-- Witness for the amended C6: the 12-digit conjunct at a concrete string. -/
theorem claim_C6_amended_witness : sanitizeMessage "424242424242" = "424242424242" :=
  claim_C6_amended.1 "424242424242" (by decide) (by decide)

/-! ## Claims about the cipher -/

/-- Counterexample to claim C4 as stated: a malformed (unparseable) blob does
fail — no plaintext is ever returned — but it fails with a parse error (in
the source, `JSON.parse` throws a `SyntaxError` before any cryptography runs),
not with an AuthenticationError, which the spec's own §7 reserves for the
decrypt-time tag mismatch. -/
theorem claim_C4_counterexample :
    decryptBlob (List.replicate 32 0) .garbage = .error .parseError
    ∧ DecryptError.parseError ≠ DecryptError.authenticationError :=
  ⟨rfl, by decide⟩

/-- Claim C4 as amended: for an envelope produced by `encrypt` under `key`,
`decrypt` fails with an AuthenticationError — releasing no plaintext — under
any other (32-byte) key, under any tampering of the ciphertext, and under any
tampering of the authentication tag; a malformed blob also never yields
plaintext, but it fails at the parse step with a parse error rather than an
AuthenticationError. -/
theorem claim_C4_amended (key key2 nonce pt ct2 tag2 : List Nat)
    (hk : key.length = 32) (hk2 : key2.length = 32) :
    (key2 ≠ key →
      decrypt key2 (encrypt key nonce pt) = .error .authenticationError)
    ∧ (ct2 ≠ (encrypt key nonce pt).ciphertext →
      decrypt key { encrypt key nonce pt with ciphertext := ct2 }
        = .error .authenticationError)
    ∧ (tag2 ≠ (encrypt key nonce pt).authTag →
      decrypt key { encrypt key nonce pt with authTag := tag2 }
        = .error .authenticationError)
    ∧ decryptBlob key2 .garbage = .error .parseError := by
  refine ⟨?_, ?_, ?_, rfl⟩
  · intro hne
    simp only [decrypt, encrypt]
    rw [if_neg]
    intro heq
    simp only [idealTag, List.append_assoc] at heq
    exact hne (List.append_inj heq (hk.trans hk2.symm)).1.symm
  · intro hne
    simp only [decrypt, encrypt]
    rw [if_neg]
    intro heq
    simp only [idealTag] at heq
    exact hne (List.append_cancel_left heq).symm
  · intro hne
    simp only [decrypt, encrypt]
    rw [if_neg]
    intro heq
    exact hne heq

/-- Witness for the amended C4: a concrete envelope under a different key, a
truncated ciphertext, a truncated tag and a garbage blob all fail closed. -/
theorem claim_C4_amended_witness :
    decrypt (List.replicate 32 1) (encrypt (List.replicate 32 0) (List.replicate 12 0) [5])
      = .error .authenticationError
    ∧ decrypt (List.replicate 32 0)
        { encrypt (List.replicate 32 0) (List.replicate 12 0) [5] with ciphertext := [] }
      = .error .authenticationError
    ∧ decrypt (List.replicate 32 0)
        { encrypt (List.replicate 32 0) (List.replicate 12 0) [5] with authTag := [] }
      = .error .authenticationError
    ∧ decryptBlob (List.replicate 32 1) .garbage = .error .parseError := by
  have h := claim_C4_amended (List.replicate 32 0) (List.replicate 32 1) (List.replicate 12 0)
    [5] [] [] (by decide) (by decide)
  exact ⟨h.1 (by decide), h.2.1 (by decide), h.2.2.1 (by decide), h.2.2.2⟩

/-- Claim C5: with a fixed valid process key (32 bytes) and a 12-byte nonce,
`decrypt (encrypt text) = text` for every plaintext string; the byte encoding
of strings is injective, so the decrypted bytes determine the original string
exactly. -/
theorem claim_C5 (key nonce : List Nat) (s : String)
    (hk : key.length = 32) (hn : nonce.length = 12) :
    decrypt key (encrypt key nonce (strBytes s)) = .ok (strBytes s)
    ∧ ∀ t : String, strBytes s = strBytes t → s = t :=
  ⟨decrypt_encrypt key nonce (strBytes s) (strBytes_lt s),
   fun _ h => strBytes_injective h⟩

/-- Witness for C5 at a concrete key, nonce and plaintext. -/
theorem claim_C5_witness :
    decrypt (List.replicate 32 7)
        (encrypt (List.replicate 32 7) (List.replicate 12 3) (strBytes "hi"))
      = .ok (strBytes "hi") :=
  (claim_C5 (List.replicate 32 7) (List.replicate 12 3) "hi"
    (by decide) (by decide)).1

/-! ## Claims about the circuit breaker -/

/-- Claim C2: with the breaker OPEN and `nextAttempt = T`, (1) every
`canExecute()` call strictly before `T` (30 seconds after OPEN was entered)
returns false and leaves the breaker unchanged, so all such calls return
false; (2) a call at or after `T` returns true and flips the phase to
HALF_OPEN as a side effect — this call is the probe; (3) once flipped, further
`canExecute()` calls return true without any state change, so the
OPEN→HALF_OPEN flip happens exactly once until a result is recorded for the
probe. -/
theorem claim_C2 (cb : CircuitBreaker) (T : Nat)
    (h : cb.state = .OPEN) (hT : cb.nextAttempt = T) :
    (∀ now, now < T → canExecute now cb = (false, cb))
    ∧ (∀ now, T ≤ now →
        canExecute now cb = (true, { cb with state := .HALF_OPEN }))
    ∧ (∀ n2, canExecute n2 { cb with state := .HALF_OPEN }
        = (true, { cb with state := .HALF_OPEN })) := by
  obtain ⟨st, fc, na⟩ := cb
  simp only at h hT
  subst h
  subst hT
  refine ⟨?_, ?_, ?_⟩
  · intro now hlt
    simp [canExecute, Nat.not_le.mpr hlt]
  · intro now hle
    simp [canExecute, hle]
  · intro n2
    simp [canExecute]

/-- Witness for C2 at a concrete breaker that entered OPEN at time 0. -/
theorem claim_C2_witness :
    canExecute 29999 ⟨.OPEN, 3, 30000⟩ = (false, ⟨.OPEN, 3, 30000⟩)
    ∧ canExecute 30000 ⟨.OPEN, 3, 30000⟩ = (true, ⟨.HALF_OPEN, 3, 30000⟩)
    ∧ canExecute 31000 ⟨.HALF_OPEN, 3, 30000⟩ = (true, ⟨.HALF_OPEN, 3, 30000⟩) := by
  have h := claim_C2 ⟨.OPEN, 3, 30000⟩ 30000 rfl rfl
  exact ⟨h.1 29999 (by decide), h.2.1 30000 (by decide), h.2.2 31000⟩

/-- Claim C3: from CLOSED with `failCount = 0`, three consecutive
`recordFailure()` calls leave the breaker OPEN with `failCount = 3` and the
reopen time 30 seconds after the third failure; and after any prefix of at
most two failures, a `recordSuccess()` resets the counter to 0 (phase CLOSED,
`nextAttempt` untouched) and the subsequent third failure leaves the breaker
CLOSED with `failCount = 1` — it does not trip it. -/
theorem claim_C3 (na t1 t2 t3 v : Nat) :
    recordFailure t3 (recordFailure t2 (recordFailure t1 ⟨.CLOSED, 0, na⟩))
      = ⟨.OPEN, 3, t3 + COOLDOWN_MS⟩
    ∧ ∀ pre : List Nat, pre.length ≤ 2 →
        recordSuccess (recordFailures pre ⟨.CLOSED, 0, na⟩)
            = ⟨.CLOSED, 0, (recordFailures pre ⟨.CLOSED, 0, na⟩).nextAttempt⟩
        ∧ (recordFailure v (recordSuccess (recordFailures pre ⟨.CLOSED, 0, na⟩))).state
            = .CLOSED
        ∧ (recordFailure v (recordSuccess (recordFailures pre ⟨.CLOSED, 0, na⟩))).failCount
            = 1 := by
  constructor
  · rfl
  · intro pre hlen
    match pre with
    | [] => exact ⟨rfl, rfl, rfl⟩
    | [a] => exact ⟨rfl, rfl, rfl⟩
    | [a, b] => exact ⟨rfl, rfl, rfl⟩
    | a :: b :: c :: rest => simp at hlen

/-- Witness for C3 at concrete times, with the success after two failures. -/
theorem claim_C3_witness :
    recordFailure 300 (recordFailure 200 (recordFailure 100 ⟨.CLOSED, 0, 0⟩))
      = ⟨.OPEN, 3, 30300⟩
    ∧ recordSuccess (recordFailures [100, 200] ⟨.CLOSED, 0, 0⟩) = ⟨.CLOSED, 0, 0⟩
    ∧ (recordFailure 400 (recordSuccess (recordFailures [100, 200] ⟨.CLOSED, 0, 0⟩))).state
        = .CLOSED
    ∧ (recordFailure 400 (recordSuccess (recordFailures [100, 200] ⟨.CLOSED, 0, 0⟩))).failCount
        = 1 := by
  have h := claim_C3 0 100 200 300 400
  have h2 := h.2 [100, 200] (by decide)
  exact ⟨h.1, h2.1, h2.2.1, h2.2.2⟩

/-- Claim C10: `recordSuccess()` from any breaker state sets the phase to
CLOSED and the failure counter to 0 and leaves `nextAttempt` unchanged; in
particular a success recorded while OPEN closes the breaker immediately,
without waiting for the cooldown or a probe. -/
theorem claim_C10 (cb : CircuitBreaker) :
    recordSuccess cb = ⟨.CLOSED, 0, cb.nextAttempt⟩ := by
  rfl

/-- Witness for C10 at a concrete OPEN breaker mid-cooldown. -/
theorem claim_C10_witness :
    recordSuccess ⟨.OPEN, 2, 500⟩ = ⟨.CLOSED, 0, 500⟩ :=
  claim_C10 ⟨.OPEN, 2, 500⟩

/-- Hex decoding consumes characters two at a time, so an all-hex list of
even length decodes to half as many bytes. -/
theorem hexDecode_length_all : ∀ (n : Nat) (l : List Char), l.length ≤ n →
    (∀ c ∈ l, isHexDigit c = true) → (hexDecode l).length = l.length / 2 := by
  intro n
  induction n with
  | zero =>
    intro l hle _
    cases l with
    | nil => rfl
    | cons c rest => simp at hle
  | succ n ih =>
    intro l hle hhex
    match l with
    | [] => rfl
    | [c] => simp [hexDecode]
    | c1 :: c2 :: rest =>
      simp only [hexDecode, hhex c1 (by simp), hhex c2 (by simp), Bool.and_self,
        if_true, List.length_cons]
      rw [ih rest (by simp only [List.length_cons] at hle; omega)
        (fun x hx => hhex x (by simp [hx]))]
      omega

/-! ## Claims about the pipeline, the audit sink and the key configuration -/

/-- Counterexample to claim C1 as stated: a userId of a single space is a
non-empty string, but the handler's validation (`!userId.trim()`) rejects it
with a 400 before redaction, encryption or audit, so zero audit records are
appended instead of exactly one. -/
theorem claim_C1_counterexample :
    (" " : String) ≠ ""
    ∧ (handleSecureInquiry (List.replicate 32 0) (List.replicate 12 0) "id-1" 0
        { userId := " ", message := "hello", forceFail := false }
        ⟨.CLOSED, 0, 0⟩).audits = [] :=
  ⟨by decide, by decide⟩

/-- Claim C1 as amended: for every request whose userId and message contain a
non-whitespace character (the handler validates with `trim()`), exactly one
audit record is appended; its `redactedMessage` is `sanitizeMessage message`
and its encrypted original decrypts under the process key to exactly the
original message — for every breaker state and both downstream outcomes, and
also when the call is skipped. -/
theorem claim_C1_amended (key nonce : List Nat) (uuid : String) (now : Nat)
    (req : Request) (cb : CircuitBreaker)
    (hk : key.length = 32) (hn : nonce.length = 12)
    (hu : isBlank req.userId = false) (hm : isBlank req.message = false) :
    ∃ rec : AuditRecord,
      (handleSecureInquiry key nonce uuid now req cb).audits = [rec]
      ∧ rec.redactedMessage = sanitizeMessage req.message
      ∧ decrypt key rec.originalMessageEncrypted = .ok (strBytes req.message) := by
  have hrt := decrypt_encrypt key nonce (strBytes req.message) (strBytes_lt req.message)
  unfold handleSecureInquiry
  simp only [hu, hm, Bool.false_eq_true, if_false]
  rcases hce : canExecute now cb with ⟨ok, cb1⟩
  cases ok
  · exact ⟨_, rfl, rfl, hrt⟩
  · by_cases hf : req.forceFail
    · simp only [hf, if_true]
      exact ⟨_, rfl, rfl, hrt⟩
    · simp only [hf, if_false]
      exact ⟨_, rfl, rfl, hrt⟩

/-- Witness for the amended C1 at a concrete request, key, nonce and breaker. -/
theorem claim_C1_amended_witness :
    ∃ rec : AuditRecord,
      (handleSecureInquiry (List.replicate 32 0) (List.replicate 12 0) "id-1" 0
        { userId := "u1", message := "hi", forceFail := false }
        ⟨.CLOSED, 0, 0⟩).audits = [rec]
      ∧ rec.redactedMessage = sanitizeMessage "hi"
      ∧ decrypt (List.replicate 32 0) rec.originalMessageEncrypted
          = .ok (strBytes "hi") :=
  claim_C1_amended (List.replicate 32 0) (List.replicate 12 0) "id-1" 0
    { userId := "u1", message := "hi", forceFail := false } ⟨.CLOSED, 0, 0⟩
    (by decide) (by decide) (by decide) (by decide)

/-- Counterexample to claim C7 as stated: on unparseable content the sink does
proceed, but reports nothing on its observability channel (the inner
`JSON.parse` catch silently defaults to `[]`); and on an unreadable store the
fault is logged but the record is not persisted. -/
theorem claim_C7_counterexample :
    (appendAuditRecord ⟨"id", "u", 0, ⟨[], [], []⟩, "m", "a", .CLOSED⟩ .corrupt).2 = []
    ∧ (appendAuditRecord ⟨"id", "u", 0, ⟨[], [], []⟩, "m", "a", .CLOSED⟩ .unreadable).1
        = .unreadable :=
  ⟨rfl, rfl⟩

/-- Claim C7 as amended: when the persisted collection is unparseable,
`appendAuditRecord` treats it as empty and still persists the new record, but
silently (nothing is reported); when the store is unreadable, the fault is
reported via `console.error` and the record is not persisted; a parseable
store gets the record appended at the end. -/
theorem claim_C7_amended (r : AuditRecord) :
    appendAuditRecord r .corrupt = (.parsed [r], [])
    ∧ appendAuditRecord r .unreadable = (.unreadable, ["Failed to write audit log:"])
    ∧ ∀ ds, appendAuditRecord r (.parsed ds) = (.parsed (ds ++ [r]), []) :=
  ⟨rfl, rfl, fun _ => rfl⟩

/-- Witness for the amended C7 at a concrete record. -/
theorem claim_C7_amended_witness :
    appendAuditRecord ⟨"id2", "u2", 1, ⟨[], [], []⟩, "m2", "a2", .OPEN⟩ .corrupt
      = (.parsed [⟨"id2", "u2", 1, ⟨[], [], []⟩, "m2", "a2", .OPEN⟩], []) :=
  (claim_C7_amended ⟨"id2", "u2", 1, ⟨[], [], []⟩, "m2", "a2", .OPEN⟩).1

/-- Counterexample to claim C8 as stated: a 64-character value made of `'z'`s
is not valid hex, yet `getEncryptionKey` accepts it (only the string length is
checked) and `Buffer.from(.., 'hex')` truncates it to 0 bytes — not 32 — and
the server starts serving anyway. -/
theorem claim_C8_counterexample :
    getEncryptionKey (some (String.mk (List.replicate 64 'z'))) = .ok []
    ∧ ([] : List Nat).length ≠ 32
    ∧ startServer (some (String.mk (List.replicate 64 'z'))) = .serving :=
  ⟨rfl, by decide, rfl⟩

/-- Claim C8 as amended: key configuration fails fast, with a descriptive
error, exactly when the configured value is absent/empty or not 64 characters
long, and then the process exits before serving; any 64-character value is
accepted (hex-validity is not checked), and a 64-character value that is valid
hex does decode to exactly 32 bytes. -/
theorem claim_C8_amended :
    getEncryptionKey none = .error .missing
    ∧ getEncryptionKey (some "") = .error .missing
    ∧ (∀ k : String, k ≠ "" → k.length ≠ 64 →
        getEncryptionKey (some k) = .error .badLength)
    ∧ (∀ k : String, k ≠ "" → k.length = 64 →
        getEncryptionKey (some k) = .ok (hexDecode k.data))
    ∧ (∀ env e, getEncryptionKey env = .error e → startServer env = .exited 1)
    ∧ (∀ k : String, (∀ c ∈ k.data, isHexDigit c = true) → k.data.length = 64 →
        (hexDecode k.data).length = 32) := by
  refine ⟨rfl, rfl, ?_, ?_, ?_, ?_⟩
  · intro k h1 h2
    simp [getEncryptionKey, h1, h2]
  · intro k h1 h2
    simp [getEncryptionKey, h1, h2]
  · intro env e he
    unfold startServer
    rw [he]
  · intro k hhex h64
    rw [hexDecode_length_all k.data.length k.data (Nat.le_refl _) hhex, h64]

/-- Witness for the amended C8 at concrete environment values. -/
theorem claim_C8_amended_witness :
    getEncryptionKey (some "ab") = .error .badLength
    ∧ startServer none = .exited 1
    ∧ getEncryptionKey (some (String.mk (List.replicate 64 '0')))
        = .ok (hexDecode (String.mk (List.replicate 64 '0')).data)
    ∧ (hexDecode (String.mk (List.replicate 64 '0')).data).length = 32 := by
  have h := claim_C8_amended
  exact ⟨h.2.2.1 "ab" (by decide) (by decide),
    h.2.2.2.2.1 none .missing rfl,
    h.2.2.2.1 _ (by decide) (by decide),
    h.2.2.2.2.2 _ (by decide) (by decide)⟩

end SecureMiddleware
